import Mathlib

/-!
Verification of the deepseek-engineer local execution engine.

The development shallowly embeds the pure core of `r1.py` and
`rate_limiter.py`:

* Python `str` values are modelled as `String` (or `List Char` where the
  claims speak about individual characters/bytes of file contents);
* the global `conversation_history` list is modelled as an explicit
  `List Msg` threaded through the operations that mutate it;
* `time.time()` / `time.sleep()` are modelled by passing the sampled clock
  values into `rlCall` explicitly (the sample taken on entry, and the sample
  taken after the sleep);
* filesystem reads/writes are modelled by passing file contents in and out
  (`Option String` for "the file at the target path", a field `readable`
  for "the read succeeded");
* Python exceptions become `Except`/`Option`/tagged outcomes.
-/

/-! ## Strings: Python substring / prefix tests -/

/-- Whether `needle` matches at some position of `hay` (the end position
included when `needle` is empty). -/
def isSubstring (needle : List Char) : List Char → Bool
  | [] => needle.isEmpty
  | a :: rest => List.isPrefixOf needle (a :: rest) || isSubstring needle rest

/-- Python `needle in hay` (substring containment), as used by
`ensure_file_in_context` and `stream_openai_response` on message contents. -/
def containsSubstr (needle hay : String) : Bool :=
  isSubstring needle.data hay.data

/-- Python `s.startswith(pre)`, as used by `normalize_path` on path strings. -/
def pyStartsWith (s pre : String) : Bool :=
  List.isPrefixOf pre.data s.data

/-! ## Path sandbox: `normalize_path` (r1.py lines 429-444)

A POSIX path is modelled by its `pathlib.Path.parts` with the root split
off: `absolute` says whether the raw path began with `/`, and `segs` are
the remaining components in order.  `Path.resolve()` without symlinks is
lexical: it removes `.` segments and makes `..` drop the previous
component (at the root `..` stays at the root).  The working directory is
given as its (already absolute) segment list. -/

structure PyPath where
  absolute : Bool
  segs : List String
deriving DecidableEq

/-- Lexical resolution of `.` and `..`, the effect of `Path.resolve()` on a
symlink-free absolute path. -/
def resolveDots (segs : List String) : List String :=
  segs.foldl
    (fun acc seg =>
      if seg == "." then acc
      else if seg == ".." then acc.dropLast
      else acc ++ [seg])
    []

/-- `str(path)` for an absolute path given by its components. -/
def pathStr (segs : List String) : String :=
  "/" ++ String.intercalate "/" segs

/-- The segments of the fully resolved path: `path.absolute()` prefixes the
working directory when the raw path is relative, then `path.resolve()`. -/
def canonicalSegs (cwd : List String) (p : PyPath) : List String :=
  resolveDots (if p.absolute then p.segs else cwd ++ p.segs)

/-- `str(path)` after resolution. -/
def canonicalStr (cwd : List String) (p : PyPath) : String :=
  pathStr (canonicalSegs cwd p)

/-- `str(Path(os.getcwd()).resolve())`. -/
def workspaceStr (cwd : List String) : String :=
  pathStr (resolveDots cwd)

inductive PathError where
  | invalidPath
deriving DecidableEq

/-- `normalize_path` (r1.py 429-444): resolve the path, then require
`str(path).startswith(str(workspace))`; every failure is wrapped into the
single `ValueError("Invalid path: ...")`. -/
def normalizePath (cwd : List String) (p : PyPath) : Except PathError String :=
  if pyStartsWith (canonicalStr cwd p) (workspaceStr cwd) then
    Except.ok (canonicalStr cwd p)
  else
    Except.error PathError.invalidPath

/-! ## Conversation messages (r1.py `conversation_history`) -/

structure Msg where
  role : String
  content : String
deriving DecidableEq

/-- The marker `f"Content of file '{normalized_path}'"` used by
`ensure_file_in_context` and `stream_openai_response`. -/
def fileMarker (path : String) : String :=
  "Content of file '" ++ path ++ "'"

/-- The file-content system message `f"{file_marker}:\n\n{content}"`. -/
def fileContentMsg (path content : String) : Msg :=
  ⟨"system", fileMarker path ++ ":\n\n" ++ content⟩

/-- The membership test `file_marker in msg["content"]`. -/
def hasFileMarker (path : String) (m : Msg) : Bool :=
  containsSubstr (fileMarker path) m.content

/-- `ensure_file_in_context` (r1.py 414-427), successful-read path: append a
file-content message unless some message already holds the marker.  The
content read from disk is passed in as `content`. -/
def ensureFileInContext (hist : List Msg) (path content : String) : List Msg :=
  if hist.any (hasFileMarker path) then hist
  else hist ++ [fileContentMsg path content]

/-- The conversation-log appends of a successful `create_file`
(r1.py 200-210): an operation record and then the full content message,
appended unconditionally. -/
def createFileRecord (hist : List Msg) (path content : String) : List Msg :=
  hist ++ [⟨"system", "File operation: Created/updated file at '" ++ path ++ "'"⟩,
           fileContentMsg path content]

/-- How many file-content messages for `path` the log holds. -/
def countFileMsgs (hist : List Msg) (path : String) : Nat :=
  (hist.filter (hasFileMarker path)).length

/-! ## Per-request rebuild (r1.py `stream_openai_response` 470-493) -/

/-- The classifier of the rebuild loop:
`msg["role"] == "system" and "Content of file '" in msg["content"]`. -/
def isFileContentMsg (m : Msg) : Bool :=
  m.role == "system" && containsSubstr "Content of file '" m.content

/-- The classifier `msg["role"] in ["user", "assistant"]`. -/
def isUserOrAssistant (m : Msg) : Bool :=
  m.role == "user" || m.role == "assistant"

/-- The single pass over `conversation_history[1:]` that collects
`file_context` and `user_assistant_pairs`, in order. -/
def splitHistory : List Msg → List Msg × List Msg
  | [] => ([], [])
  | m :: rest =>
    let p := splitHistory rest
    if isFileContentMsg m then (m :: p.1, p.2)
    else if isUserOrAssistant m then (p.1, m :: p.2)
    else p

/-- `if len(user_assistant_pairs) % 2 != 0: user_assistant_pairs = user_assistant_pairs[:-1]`. -/
def dropUnpairedTail (l : List Msg) : List Msg :=
  if l.length % 2 ≠ 0 then l.dropLast else l

/-- The history rebuild at the top of `stream_openai_response` (r1.py
470-493): keep `conversation_history[0]`, then all file-content messages,
then complete user/assistant pairs, then the new user message; `none` models
the `IndexError` on an empty history (unreachable in the program). -/
def rebuildForRequest (hist : List Msg) (userMessage : String) : Option (List Msg) :=
  match hist with
  | [] => none
  | h :: rest =>
    let p := splitHistory rest
    some (h :: (p.1 ++ dropUnpairedTail p.2 ++ [⟨"user", userMessage⟩]))

/-! ## Pruning (r1.py `trim_conversation_history` 625-636) -/

/-- Python `l[-n:]` (for `n ≥ 1`). -/
def lastN (n : Nat) (l : List Msg) : List Msg :=
  l.drop (l.length - n)

/-- `trim_conversation_history` (r1.py 625-636): all system messages first,
then the last `max_pairs * 2` non-system messages. -/
def trimConversationHistory (hist : List Msg) : List Msg :=
  let maxPairs := 10
  let systemMsgs := hist.filter (fun m => m.role == "system")
  let otherMsgs := hist.filter (fun m => m.role != "system")
  let kept := if maxPairs * 2 < otherMsgs.length then lastN (maxPairs * 2) otherMsgs
              else otherMsgs
  systemMsgs ++ kept

/-! ## Snippet patcher: `apply_diff_edit` (r1.py 229-261)

File contents and snippets are `List Char` (a Python `str` is a sequence of
code points). -/

/-- The number of positions of `c` (including the end position) at which `s`
matches: the mathematical, possibly overlapping, occurrence count. -/
def occsFrom (s : List Char) (c : List Char) : Nat :=
  match c with
  | [] => if List.isPrefixOf s [] then 1 else 0
  | _ :: rest =>
    (if List.isPrefixOf s c then 1 else 0) + occsFrom s rest

/-- Python `content.count(original_snippet)` for a non-empty snippet:
non-overlapping occurrences scanned from the left.  After a match the scan
continues past the matched span; `skip` counts the positions still inside
the previous match. -/
def pyCountGo (s : List Char) : Nat → List Char → Nat
  | _, [] => 0
  | Nat.succ k, _ :: rest => pyCountGo s k rest
  | 0, a :: rest =>
    if List.isPrefixOf s (a :: rest) then 1 + pyCountGo s (s.length - 1) rest
    else pyCountGo s 0 rest

/-- Python `content.count(s)` for non-empty `s`: the scan from the start. -/
def pyCountAux (s : List Char) (c : List Char) : Nat :=
  pyCountGo s 0 c

/-- Python `content.count(snippet)` (`"abc".count("")` is `len + 1`). -/
def pyCount (c s : List Char) : Nat :=
  if s = [] then c.length + 1 else pyCountAux s c

/-- Python `content.replace(s, t, 1)` for a non-empty `s`: replace the
leftmost match. -/
def pyReplace1Aux (s t : List Char) : List Char → List Char
  | [] => []
  | a :: rest =>
    if List.isPrefixOf s (a :: rest) then t ++ (a :: rest).drop s.length
    else a :: pyReplace1Aux s t rest

/-- Python `content.replace(s, t, 1)` (an empty `s` inserts `t` in front). -/
def pyReplace1 (c s t : List Char) : List Char :=
  if s = [] then t ++ c else pyReplace1Aux s t c

inductive PatchErr where
  | snippetNotFound
  | ambiguousSnippet (occurrences : Nat)
deriving DecidableEq

/-- The pure substitution core of `apply_diff_edit` (r1.py 229-245): count
the snippet's occurrences with `str.count`; zero raises
`ValueError("Original snippet not found")`, more than one raises the
ambiguous-edit `ValueError`, exactly one replaces the first occurrence. -/
def applyDiffEdit (content original new : List Char) : Except PatchErr (List Char) :=
  let occurrences := pyCount content original
  if occurrences = 0 then Except.error PatchErr.snippetNotFound
  else if 1 < occurrences then Except.error (PatchErr.ambiguousSnippet occurrences)
  else Except.ok (pyReplace1 content original new)

/-- `apply_diff_edit` together with the file: on success the updated content
is written back (via `create_file` with confirmation off); on either error
the write is never reached and the file keeps its content. -/
def applyDiffEditFile (content original new : List Char) :
    List Char × Option PatchErr :=
  match applyDiffEdit content original new with
  | Except.ok updated => (updated, none)
  | Except.error e => (content, some e)

/-! ## File writer: `create_file` (r1.py 166-213) -/

inductive CreateOutcome where
  | written
  | skipped
  | errorHomeRef
  | errorInvalidPath
  | errorTooLarge
deriving DecidableEq

/-- `create_file` (r1.py 166-213) up to and including the write decision.
`decision` is the confirmation reply after `.strip().lower()` (unused when
`requireConfirmation` is false, where the code substitutes `'y'`);
`oldFile` is the content currently at the target path (`none` when the file
does not exist).  The skip branch is Python's
`if user_confirm != 'y' and user_confirm:` — an empty string is falsy, so
it falls through to the write. -/
def createFile (cwd : List String) (path : PyPath) (content : String)
    (requireConfirmation : Bool) (decision : String) (oldFile : Option String) :
    CreateOutcome × Option String :=
  if path.segs.any (fun part => pyStartsWith part "~") then
    (CreateOutcome.errorHomeRef, oldFile)
  else
    match normalizePath cwd path with
    | Except.error _ => (CreateOutcome.errorInvalidPath, oldFile)
    | Except.ok _ =>
      if 5000000 < content.length then (CreateOutcome.errorTooLarge, oldFile)
      else
        let userConfirm := if requireConfirmation then decision else "y"
        if userConfirm ≠ "y" ∧ userConfirm ≠ "" then (CreateOutcome.skipped, oldFile)
        else (CreateOutcome.written, some content)

/-! ## Directory ingester: `add_directory_to_conversation` (r1.py 285-400)

A scan run is the sequence of candidate files `os.walk` yields, flattened;
per file we carry the data the loop body inspects: the base name, the
already-lowercased extension from `os.path.splitext`, the size from
`os.path.getsize`, the binary heuristic's verdict, and whether
`normalize_path` and `read_local_file` succeed. -/

structure ScanFile where
  name : String
  ext : String
  size : Nat
  isBinary : Bool
  readable : Bool
deriving DecidableEq

structure ScanState where
  skipped : List String
  added : List String
  totalFilesProcessed : Nat
  totalSize : Nat
deriving DecidableEq

def maxScanFiles : Nat := 1000

def maxFileSize : Nat := 5000000

def maxTotalSize : Nat := 50000000

/-- The `excluded_files` set of r1.py 287-302. -/
def excludedFiles : List String :=
  [".DS_Store", "Thumbs.db", ".gitignore", ".python-version",
   "uv.lock", ".uv", "uvenv", ".uvenv", ".venv", "venv",
   "__pycache__", ".pytest_cache", ".coverage", ".mypy_cache",
   "node_modules", "package-lock.json", "yarn.lock", "pnpm-lock.yaml",
   ".next", ".nuxt", "dist", "build", ".cache", ".parcel-cache",
   ".turbo", ".vercel", ".output", ".contentlayer",
   "out", "coverage", ".nyc_output", "storybook-static",
   ".env", ".env.local", ".env.development", ".env.production",
   ".git", ".svn", ".hg", "CVS"]

/-- The `excluded_extensions` set of r1.py 303-326. -/
def excludedExtensions : List String :=
  [".png", ".jpg", ".jpeg", ".gif", ".ico", ".svg", ".webp", ".avif",
   ".mp4", ".webm", ".mov", ".mp3", ".wav", ".ogg",
   ".zip", ".tar", ".gz", ".7z", ".rar",
   ".exe", ".dll", ".so", ".dylib", ".bin",
   ".pdf", ".doc", ".docx", ".xls", ".xlsx", ".ppt", ".pptx",
   ".pyc", ".pyo", ".pyd", ".egg", ".whl",
   ".uv", ".uvenv",
   ".db", ".sqlite", ".sqlite3", ".log",
   ".idea", ".vscode",
   ".map", ".chunk.js", ".chunk.css",
   ".min.js", ".min.css", ".bundle.js", ".bundle.css",
   ".cache", ".tmp", ".temp",
   ".ttf", ".otf", ".woff", ".woff2", ".eot"]

/-- The per-file body of the scan loop (r1.py 344-388), in the code's check
order: hidden/excluded name, excluded extension, per-file size limit,
total-size guard, binary heuristic, read/normalize failure; the surviving
file is added and the counters advance. -/
def scanStep (st : ScanState) (f : ScanFile) : ScanState :=
  if pyStartsWith f.name "." || excludedFiles.contains f.name then
    { st with skipped := st.skipped ++ [f.name] }
  else if excludedExtensions.contains f.ext then
    { st with skipped := st.skipped ++ [f.name] }
  else if maxFileSize < f.size then
    { st with skipped := st.skipped ++ [f.name] }
  else if maxTotalSize < st.totalSize + f.size then
    { st with skipped := st.skipped ++ [f.name] }
  else if f.isBinary then
    { st with skipped := st.skipped ++ [f.name] }
  else if !f.readable then
    { st with skipped := st.skipped ++ [f.name] }
  else
    { st with added := st.added ++ [f.name],
              totalFilesProcessed := st.totalFilesProcessed + 1,
              totalSize := st.totalSize + f.size }

/-- The scan loop: before each file the limit check
`total_files_processed >= max_files or total_size >= MAX_TOTAL_SIZE`
(checked both per directory and per file in the code) stops the walk. -/
def scanGo : ScanState → List ScanFile → ScanState
  | st, [] => st
  | st, f :: rest =>
    if maxScanFiles ≤ st.totalFilesProcessed ∨ maxTotalSize ≤ st.totalSize then st
    else scanGo (scanStep st f) rest

/-- `add_directory_to_conversation` over the flattened walk, from the empty
counters. -/
def addDirectoryToConversation (files : List ScanFile) : ScanState :=
  scanGo ⟨[], [], 0, 0⟩ files

/-! ## Rate limiter (rate_limiter.py / r1.py `RateLimiter`)

Clock readings are rationals.  One `__call__` takes the sample `now` taken
on entry and the sample `wake` taken after the sleep (used only on the
blocked branch). -/

structure RLState where
  maxCalls : Nat
  period : ℚ
  timestamps : List ℚ
deriving DecidableEq

/-- `RateLimiter.__init__`: stores the configuration with no validation. -/
def rlInit (maxCalls : Nat) (period : ℚ) : RLState :=
  ⟨maxCalls, period, []⟩

/-- The expiry loop `while self.timestamps and now - self.timestamps[0] > self.period`. -/
def rlPrune (period now : ℚ) : List ℚ → List ℚ
  | [] => []
  | t :: rest => if period < now - t then rlPrune period now rest else t :: rest

/-- `self.period - (now - self.timestamps[0])`. -/
def rlWaitTime (period now : ℚ) (ts : List ℚ) : ℚ :=
  period - (now - ts.headI)

/-- `RateLimiter.__call__`: prune, then either admit at `now`, or (window
full) sleep and admit at `wake`; `none` is the `IndexError` of
`self.timestamps[0]` on an empty deque (reachable only with `max_calls = 0`). -/
def rlCall (st : RLState) (now wake : ℚ) : Option (RLState × ℚ) :=
  let ts := rlPrune st.period now st.timestamps
  if st.maxCalls ≤ ts.length then
    match ts with
    | [] => none
    | _ :: _ => some (⟨st.maxCalls, st.period, ts ++ [wake]⟩, wake)
  else
    some (⟨st.maxCalls, st.period, ts ++ [now]⟩, now)

/-- The deques reachable by a sequence of `__call__`s, paired with the last
clock sample.  Clock samples strictly increase (`n < now`), and when the
call blocks, the wake-up sample is strictly later than `now` and no earlier
than `now + time_to_wait` (Python's `sleep` waits at least the requested
time). -/
inductive RLReach (m : Nat) (p : ℚ) : List ℚ → ℚ → Prop where
  | init (n0 : ℚ) : RLReach m p [] n0
  | step (ts : List ℚ) (n now wake : ℚ) (st : RLState) (t1 : ℚ) :
      RLReach m p ts n →
      n < now →
      (m ≤ (rlPrune p now ts).length →
        now < wake ∧ now + rlWaitTime p now (rlPrune p now ts) ≤ wake) →
      rlCall ⟨m, p, ts⟩ now wake = some (st, t1) →
      RLReach m p st.timestamps t1

/-- The timestamps of the window whose age is strictly below the period. -/
def strictWindowCount (p now : ℚ) (ts : List ℚ) : Nat :=
  ts.countP (fun t => decide (now - t < p))

/-! ## Theorems -/

/-! ### C10: pruning (`trim_conversation_history`) -/

/-- C10 (confirmed): after `trim_conversation_history` the log is exactly all
system messages (in their original order) followed by the last 20 non-system
messages (in their original order), and at most 20 non-system messages are
retained, counted as individual messages. -/
theorem trim_history_partition_bound (hist : List Msg) :
    trimConversationHistory hist =
      hist.filter (fun m => m.role == "system")
        ++ (hist.filter (fun m => m.role != "system")).drop
            ((hist.filter (fun m => m.role != "system")).length - 20)
    ∧ ((trimConversationHistory hist).filter (fun m => m.role != "system")).length ≤ 20 := by
  have hmain : trimConversationHistory hist =
      hist.filter (fun m => m.role == "system")
        ++ (hist.filter (fun m => m.role != "system")).drop
            ((hist.filter (fun m => m.role != "system")).length - 20) := by
    simp only [trimConversationHistory, lastN]
    split
    · rfl
    · rename_i h
      rw [Nat.sub_eq_zero_of_le (by omega), List.drop_zero]
  refine ⟨hmain, ?_⟩
  rw [hmain, List.filter_append]
  have h1 : (hist.filter (fun m => m.role == "system")).filter
      (fun m => m.role != "system") = [] := by
    rw [List.filter_eq_nil_iff]
    intro m hm
    have := (List.mem_filter.mp hm).2
    simp only [bne_iff_ne, ne_eq, Decidable.not_not]
    simpa using this
  have h2 : ((hist.filter (fun m => m.role != "system")).drop
      ((hist.filter (fun m => m.role != "system")).length - 20)).filter
      (fun m => m.role != "system") =
      (hist.filter (fun m => m.role != "system")).drop
        ((hist.filter (fun m => m.role != "system")).length - 20) := by
    rw [List.filter_eq_self]
    intro m hm
    exact (List.mem_filter.mp (List.drop_subset _ _ hm)).2
  rw [h1, h2, List.nil_append, List.length_drop]
  omega

/-! ### C9: directory ingester limits -/

lemma scanStep_bounds (st : ScanState) (f : ScanFile)
    (hs : st.totalSize ≤ maxTotalSize) (hc : st.totalFilesProcessed < maxScanFiles) :
    (scanStep st f).totalSize ≤ maxTotalSize ∧
    (scanStep st f).totalFilesProcessed ≤ maxScanFiles := by
  unfold scanStep
  split_ifs with h1 h2 h3 h4 h5 h6 <;> simp_all <;> omega

lemma scanGo_bounds (files : List ScanFile) (st : ScanState)
    (hs : st.totalSize ≤ maxTotalSize) (hc : st.totalFilesProcessed ≤ maxScanFiles) :
    (scanGo st files).totalSize ≤ maxTotalSize ∧
    (scanGo st files).totalFilesProcessed ≤ maxScanFiles := by
  induction files generalizing st with
  | nil => exact ⟨hs, hc⟩
  | cons f rest ih =>
    unfold scanGo
    split
    · exact ⟨hs, hc⟩
    · rename_i hlim
      push_neg at hlim
      exact ih _ (scanStep_bounds st f (le_of_lt hlim.2) hlim.1).1
        (scanStep_bounds st f (le_of_lt hlim.2) hlim.1).2

/-- C9 (confirmed): the ingester's cumulative size never exceeds
`max_total_size` (50,000,000) and its processed-file count never exceeds
`max_files` (1000); a file whose size would push the total past the limit
leaves both counters unchanged (it is skipped); and once either limit is
reached the scan stops, considering no further entry. -/
theorem directory_ingester_limits (files : List ScanFile) :
    (addDirectoryToConversation files).totalSize ≤ maxTotalSize
    ∧ (addDirectoryToConversation files).totalFilesProcessed ≤ maxScanFiles
    ∧ (∀ st f, maxTotalSize < st.totalSize + f.size →
        (scanStep st f).totalSize = st.totalSize
        ∧ (scanStep st f).totalFilesProcessed = st.totalFilesProcessed)
    ∧ (∀ st f rest, maxScanFiles ≤ st.totalFilesProcessed ∨ maxTotalSize ≤ st.totalSize →
        scanGo st (f :: rest) = st) := by
  refine ⟨(scanGo_bounds files _ (Nat.zero_le _) (Nat.zero_le _)).1,
    (scanGo_bounds files _ (Nat.zero_le _) (Nat.zero_le _)).2, ?_, ?_⟩
  · intro st f hover
    unfold scanStep
    split_ifs <;> simp_all
  · intro st f rest h
    unfold scanGo
    rw [if_pos h]

/-! ### C7: RateLimiter accepts max_calls = 0 (code bug) -/

/-- C7 (code bug): `RateLimiter.__init__` performs no validation at all, so
`max_calls = 0` is accepted silently at configuration time; the very first
acquisition then hits `self.timestamps[0]` on an empty deque (an
`IndexError`, modelled as `none`) instead of the claimed `InvalidConfig`
rejection at construction. -/
theorem rate_limiter_accepts_zero_max_calls :
    rlInit 0 1 = ⟨0, 1, []⟩ ∧ rlCall (rlInit 0 1) 5 5 = none :=
  ⟨rfl, rfl⟩

/-! ### C5: empty confirmation decision (code bug) -/

/-- C5 (code bug): with `require_confirmation` true, Python's skip test
`if user_confirm != 'y' and user_confirm:` is false for the empty reply, so
an empty decision falls through to the write — the file is overwritten, not
`Skipped` — while a negative decision is skipped as claimed. -/
theorem create_file_empty_decision_writes :
    createFile ["ws"] ⟨true, ["ws", "f"]⟩ "v" true "" (some "old")
      = (CreateOutcome.written, some "v")
    ∧ createFile ["ws"] ⟨true, ["ws", "f"]⟩ "v" true "n" (some "old")
      = (CreateOutcome.skipped, some "old") := by
  constructor <;> rfl

/-! ### C2: the dedup invariant -/

lemma isPrefixOf_append_self (s b : List Char) : List.isPrefixOf s (s ++ b) = true := by
  rw [List.isPrefixOf_iff_prefix]
  exact List.prefix_append s b

lemma isSubstring_append_self (s b : List Char) : isSubstring s (s ++ b) = true := by
  cases s with
  | nil => cases b <;> simp [isSubstring, List.isEmpty]
  | cons a s' =>
    rw [List.cons_append, isSubstring]
    rw [← List.cons_append, isPrefixOf_append_self]
    rfl

lemma hasFileMarker_fileContentMsg (path c : String) :
    hasFileMarker path (fileContentMsg path c) = true := by
  simp only [hasFileMarker, fileContentMsg, containsSubstr]
  rw [String.data_append, String.data_append, List.append_assoc]
  exact isSubstring_append_self _ _

/-- C2 (amended): `ensure_file_in_context` does preserve the at-most-one
invariant — re-adding a path already in context is a no-op on the log, with
whatever content the second read returns — but the invariant does not hold
for the log as a whole (see the counterexample: `create_file` appends its
file-content message unconditionally). -/
theorem ensure_file_in_context_dedup_idempotent
    (hist : List Msg) (path c1 c2 : String) :
    ensureFileInContext (ensureFileInContext hist path c1) path c2
      = ensureFileInContext hist path c1 := by
  unfold ensureFileInContext
  by_cases h : hist.any (hasFileMarker path)
  · simp [h]
  · have hmem : (hist ++ [fileContentMsg path c1]).any (hasFileMarker path) = true := by
      rw [List.any_append]
      simp [hasFileMarker_fileContentMsg]
    simp [h, hmem]

/-- C2 counterexample: two successful `create_file` runs for the same path
leave two file-content messages for that path in the log — the claimed
at-most-one-per-path invariant fails on the code. -/
theorem conversation_dedup_counterexample :
    countFileMsgs
      (createFileRecord (createFileRecord [⟨"system", "p"⟩] "/f" "v") "/f" "v")
      "/f" = 2 := by
  rfl

/-! ### C3/C4: snippet patcher -/

lemma occsFrom_cons (s : List Char) (a : Char) (l : List Char) :
    occsFrom s (a :: l) = (if List.isPrefixOf s (a :: l) then 1 else 0) + occsFrom s l :=
  rfl

lemma occsFrom_nil_needle (c : List Char) : occsFrom [] c = c.length + 1 := by
  induction c with
  | nil => rfl
  | cons a rest ih =>
    rw [occsFrom_cons, ih]
    simp [List.isPrefixOf]
    omega

lemma occsFrom_cons_ge (s : List Char) (a : Char) (l : List Char) :
    occsFrom s l ≤ occsFrom s (a :: l) := by
  rw [occsFrom_cons]
  exact Nat.le_add_left _ _

lemma occsFrom_le_append (s p c : List Char) : occsFrom s c ≤ occsFrom s (p ++ c) := by
  induction p with
  | nil => exact Nat.le_refl _
  | cons a p' ih => exact Nat.le_trans ih (occsFrom_cons_ge s a (p' ++ c))

lemma occsFrom_drop_le (s c : List Char) (k : Nat) :
    occsFrom s (c.drop k) ≤ occsFrom s c := by
  conv_rhs => rw [← List.take_append_drop k c]
  exact occsFrom_le_append s _ _

lemma one_le_occsFrom_self (s q : List Char) : 1 ≤ occsFrom s (s ++ q) := by
  cases s with
  | nil => rw [List.nil_append, occsFrom_nil_needle]; omega
  | cons a s' =>
    rw [List.cons_append, occsFrom_cons, ← List.cons_append, isPrefixOf_append_self]
    simp

lemma pyCountGo_skip (s : List Char) (k : Nat) (c : List Char) :
    pyCountGo s k c = pyCountGo s 0 (c.drop k) := by
  induction c generalizing k with
  | nil => cases k <;> rfl
  | cons a rest ih =>
    cases k with
    | zero => rfl
    | succ k' =>
      show pyCountGo s k' rest = _
      rw [ih k', List.drop_succ_cons]

lemma pyCountAux_cons (s : List Char) (a : Char) (rest : List Char) :
    pyCountAux s (a :: rest) =
      if List.isPrefixOf s (a :: rest) then 1 + pyCountAux s (rest.drop (s.length - 1))
      else pyCountAux s rest := by
  unfold pyCountAux
  show (if List.isPrefixOf s (a :: rest) then 1 + pyCountGo s (s.length - 1) rest
    else pyCountGo s 0 rest) = _
  split
  · rw [pyCountGo_skip]
  · rfl

lemma pyCountAux_pos (s c : List Char) (hs : s ≠ []) (h : 1 ≤ occsFrom s c) :
    1 ≤ pyCountAux s c := by
  induction c with
  | nil =>
    exfalso
    cases s with
    | nil => exact hs rfl
    | cons a s' => simp [occsFrom, List.isEmpty] at h
  | cons a rest ih =>
    rw [pyCountAux_cons]
    split
    · omega
    · rename_i hpre
      apply ih
      rw [occsFrom_cons, if_neg hpre] at h
      omega

lemma pyCountAux_le_occs_len (s : List Char) :
    ∀ n (c : List Char), c.length ≤ n → pyCountAux s c ≤ occsFrom s c := by
  intro n
  induction n with
  | zero =>
    intro c hc
    rw [List.eq_nil_of_length_eq_zero (Nat.le_zero.mp hc)]
    exact Nat.zero_le _
  | succ n ih =>
    intro c hc
    cases c with
    | nil => exact Nat.zero_le _
    | cons a rest =>
      rw [pyCountAux_cons, occsFrom_cons]
      split
      · rename_i hpre
        have h1 : pyCountAux s (rest.drop (s.length - 1)) ≤ occsFrom s (rest.drop (s.length - 1)) := by
          apply ih
          rw [List.length_drop]
          simp only [List.length_cons] at hc
          omega
        have h2 := occsFrom_drop_le s rest (s.length - 1)
        omega
      · have h1 : pyCountAux s rest ≤ occsFrom s rest := by
          apply ih
          simp only [List.length_cons] at hc
          omega
        omega

lemma pyCountAux_le_occs (s c : List Char) : pyCountAux s c ≤ occsFrom s c :=
  pyCountAux_le_occs_len s c.length c (Nat.le_refl _)

lemma pyCount_eq_zero_iff (c s : List Char) : pyCount c s = 0 ↔ occsFrom s c = 0 := by
  by_cases hs : s = []
  · subst hs
    simp [pyCount, occsFrom_nil_needle]
  · rw [pyCount, if_neg hs]
    constructor
    · intro h
      by_contra hocc
      have := pyCountAux_pos s c hs (by omega)
      omega
    · intro h
      have := pyCountAux_le_occs s c
      omega

lemma pyReplace1Aux_unique (s t p q : List Char) (hs : s ≠ [])
    (h : occsFrom s (p ++ (s ++ q)) = 1) :
    pyReplace1Aux s t (p ++ (s ++ q)) = p ++ (t ++ q) := by
  induction p with
  | nil =>
    rw [List.nil_append, List.nil_append]
    cases s with
    | nil => exact absurd rfl hs
    | cons a s' =>
      rw [List.cons_append, pyReplace1Aux, ← List.cons_append, isPrefixOf_append_self]
      rw [if_pos rfl, List.drop_left]
  | cons a p' ih =>
    rw [List.cons_append] at h ⊢
    have h2 : 1 ≤ occsFrom s (p' ++ (s ++ q)) :=
      Nat.le_trans (one_le_occsFrom_self s q) (occsFrom_le_append s p' (s ++ q))
    have hnot : ¬ (List.isPrefixOf s (a :: (p' ++ (s ++ q))) = true) := by
      intro hcon
      rw [occsFrom_cons, if_pos hcon] at h
      omega
    rw [pyReplace1Aux, if_neg hnot]
    rw [occsFrom_cons, if_neg hnot] at h
    rw [ih (by omega), List.cons_append]

lemma applyDiffEdit_unique (p s q t : List Char)
    (h : occsFrom s (p ++ (s ++ q)) = 1) :
    applyDiffEdit (p ++ (s ++ q)) s t = Except.ok (p ++ (t ++ q)) := by
  by_cases hs : s = []
  · subst hs
    rw [List.nil_append] at h
    rw [occsFrom_nil_needle] at h
    have hp : p = [] := by
      cases p with
      | nil => rfl
      | cons _ _ => simp at h
    subst hp
    have hq : q = [] := by
      cases q with
      | nil => rfl
      | cons _ _ => simp at h
    subst hq
    rfl
  · have hpos : 1 ≤ pyCountAux s (p ++ (s ++ q)) := by
      apply pyCountAux_pos s _ hs
      omega
    have hle : pyCountAux s (p ++ (s ++ q)) ≤ occsFrom s (p ++ (s ++ q)) :=
      pyCountAux_le_occs s _
    have hcount : pyCount (p ++ (s ++ q)) s = 1 := by
      rw [pyCount, if_neg hs]
      omega
    unfold applyDiffEdit
    rw [hcount]
    rw [if_neg (by omega), if_neg (by omega)]
    rw [pyReplace1, if_neg hs]
    exact congrArg Except.ok (pyReplace1Aux_unique s t p q hs h)

/-- C3 (amended): when the snippet `S` occurs exactly once in
`C = P ++ S ++ Q`, `apply_diff_edit` replaces exactly that occurrence by
`T`, preserving every byte of `P` and `Q` verbatim; and provided the new
snippet `T` occurs exactly once in the updated content, applying the
inverse edit restores `C` byte-identically.  (Without that proviso the
round trip fails: see the counterexample.) -/
theorem apply_diff_edit_unique_replace (p s q t : List Char)
    (h : occsFrom s (p ++ (s ++ q)) = 1) :
    applyDiffEdit (p ++ (s ++ q)) s t = Except.ok (p ++ (t ++ q))
    ∧ (occsFrom t (p ++ (t ++ q)) = 1 →
        applyDiffEdit (p ++ (t ++ q)) t s = Except.ok (p ++ (s ++ q))) :=
  ⟨applyDiffEdit_unique p s q t h, fun h2 => applyDiffEdit_unique p t q s h2⟩

/-- Witness for C3: replacing the unique `a` in `xay` by `bb` gives `xbby`,
and the inverse edit (whose snippet `bb` is unique in `xbby`) restores
`xay`. -/
theorem apply_diff_edit_unique_replace_witness :
    applyDiffEdit (['x'] ++ (['a'] ++ ['y'])) ['a'] ['b', 'b']
      = Except.ok (['x'] ++ (['b', 'b'] ++ ['y']))
    ∧ applyDiffEdit (['x'] ++ (['b', 'b'] ++ ['y'])) ['b', 'b'] ['a']
      = Except.ok (['x'] ++ (['a'] ++ ['y'])) :=
  ⟨(apply_diff_edit_unique_replace ['x'] ['a'] ['y'] ['b', 'b'] (by decide)).1,
   (apply_diff_edit_unique_replace ['x'] ['a'] ['y'] ['b', 'b'] (by decide)).2 (by decide)⟩

/-- C3 counterexample: `a` occurs exactly once in `C = xa`; replacing it by
`x` yields `xx`, but the inverse edit (`x` back to `a`) fails as ambiguous
(`x` now occurs twice) and leaves the content `xx` — the round trip does
not restore `C`. -/
theorem apply_diff_edit_roundtrip_counterexample :
    occsFrom ['a'] ['x', 'a'] = 1
    ∧ applyDiffEdit ['x', 'a'] ['a'] ['x'] = Except.ok ['x', 'x']
    ∧ applyDiffEditFile ['x', 'x'] ['x'] ['a'] = (['x', 'x'], some (PatchErr.ambiguousSnippet 2))
    ∧ applyDiffEdit ['x', 'x'] ['x'] ['a'] ≠ Except.ok ['x', 'a'] :=
  ⟨rfl, rfl, rfl, fun hcon => Except.noConfusion hcon⟩

/-- C4 (amended): `apply_diff_edit` fails with `SnippetNotFound` exactly
when the snippet occurs nowhere in the content; it fails with
`AmbiguousSnippet` — reporting the occurrence count — exactly when Python's
non-overlapping `str.count` is at least 2 (overlapping occurrences may be
counted as one: see the counterexample); and on either failure the file
content is left byte-for-byte unchanged. -/
theorem apply_diff_edit_failure_conditions (c s t : List Char) :
    (applyDiffEdit c s t = Except.error PatchErr.snippetNotFound ↔ occsFrom s c = 0)
    ∧ (applyDiffEdit c s t = Except.error (PatchErr.ambiguousSnippet (pyCount c s))
        ↔ 2 ≤ pyCount c s)
    ∧ (∀ e, applyDiffEdit c s t = Except.error e → applyDiffEditFile c s t = (c, some e)) := by
  refine ⟨?_, ?_, ?_⟩
  · rw [← pyCount_eq_zero_iff]
    unfold applyDiffEdit
    rcases Nat.lt_trichotomy (pyCount c s) 1 with h | h | h
    · have h0 : pyCount c s = 0 := by omega
      simp [h0]
    · simp [h]
    · have h0 : ¬ (pyCount c s = 0) := by omega
      simp [h0, h]
  · unfold applyDiffEdit
    rcases Nat.lt_trichotomy (pyCount c s) 1 with h | h | h
    · have h0 : pyCount c s = 0 := by omega
      simp [h0]
    · simp [h]
    · have h0 : ¬ (pyCount c s = 0) := by omega
      simp [h0, h]
      omega
  · intro e he
    unfold applyDiffEditFile
    rw [he]

/-- C4 counterexample: the snippet `aa` occurs at two positions of `aaa`
(the occurrences overlap), yet Python's `str.count` reports 1, so the edit
is applied (replacing the leftmost occurrence) instead of failing with
`AmbiguousSnippet`. -/
theorem apply_diff_edit_overlap_counterexample :
    occsFrom ['a', 'a'] ['a', 'a', 'a'] = 2
    ∧ applyDiffEdit ['a', 'a', 'a'] ['a', 'a'] ['x'] = Except.ok ['x', 'a'] :=
  ⟨rfl, rfl⟩

/-! ### C8: per-request rebuild -/

lemma not_ua_of_fileContent (m : Msg) (h : isFileContentMsg m = true) :
    isUserOrAssistant m = false := by
  unfold isFileContentMsg at h
  have hr : m.role = "system" := by
    have h1 := (Bool.and_eq_true _ _).mp h
    exact beq_iff_eq.mp h1.1
  unfold isUserOrAssistant
  rw [hr]
  rfl

lemma not_fc_of_ua (m : Msg) (h : isUserOrAssistant m = true) :
    isFileContentMsg m = false := by
  unfold isUserOrAssistant at h
  unfold isFileContentMsg
  rcases Bool.or_eq_true _ _ |>.mp h with h1 | h1
  · rw [beq_iff_eq.mp h1]
    rfl
  · rw [beq_iff_eq.mp h1]
    rfl

lemma splitHistory_eq (l : List Msg) :
    splitHistory l = (l.filter isFileContentMsg, l.filter isUserOrAssistant) := by
  induction l with
  | nil => rfl
  | cons m rest ih =>
    simp only [splitHistory]
    rw [ih]
    by_cases h1 : isFileContentMsg m
    · simp [h1, not_ua_of_fileContent m h1, List.filter_cons]
    · by_cases h2 : isUserOrAssistant m
      · simp [h1, h2, List.filter_cons]
      · simp [h1, h2, List.filter_cons]

lemma dropUnpairedTail_even (l : List Msg) : (dropUnpairedTail l).length % 2 = 0 := by
  unfold dropUnpairedTail
  split
  · rename_i h
    rw [List.length_dropLast]
    omega
  · rename_i h
    simp at h
    exact h

lemma mem_dropUnpairedTail (m : Msg) (l : List Msg) (h : m ∈ dropUnpairedTail l) :
    m ∈ l := by
  unfold dropUnpairedTail at h
  split at h
  · exact (List.dropLast_sublist l).subset h
  · exact h

lemma dropUnpairedTail_concat_even (l : List Msg) (m : Msg) (h : l.length % 2 = 0) :
    dropUnpairedTail (l ++ [m]) = l := by
  unfold dropUnpairedTail
  have hlen : (l ++ [m]).length % 2 ≠ 0 := by
    rw [List.length_append, List.length_cons, List.length_nil]
    omega
  rw [if_pos hlen]
  exact List.dropLast_concat

/-- C8 (confirmed): the rebuild replaces the log with exactly the original
first (system) message, then all current file-content messages, then the
user/assistant messages with an unpaired trailing entry dropped, then the
new user message; and applying the rebuild again, with the same new
message, to the rebuilt log reproduces it exactly (in particular the
message count is the same). -/
theorem rebuild_for_request_canonical_idempotent (h : Msg) (t : List Msg) (u : String) :
    rebuildForRequest (h :: t) u =
      some (h :: (t.filter isFileContentMsg
        ++ dropUnpairedTail (t.filter isUserOrAssistant) ++ [⟨"user", u⟩]))
    ∧ (rebuildForRequest (h :: t) u).bind (fun l => rebuildForRequest l u)
        = rebuildForRequest (h :: t) u := by
  have hmain : rebuildForRequest (h :: t) u =
      some (h :: (t.filter isFileContentMsg
        ++ dropUnpairedTail (t.filter isUserOrAssistant) ++ [⟨"user", u⟩])) := by
    simp only [rebuildForRequest, splitHistory_eq]
  refine ⟨hmain, ?_⟩
  rw [hmain]
  show rebuildForRequest (h :: (t.filter isFileContentMsg
      ++ dropUnpairedTail (t.filter isUserOrAssistant) ++ [⟨"user", u⟩])) u = _
  have hFCmem : ∀ m ∈ t.filter isFileContentMsg, isFileContentMsg m = true :=
    fun m hm => (List.mem_filter.mp hm).2
  have hPmem : ∀ m ∈ dropUnpairedTail (t.filter isUserOrAssistant),
      isUserOrAssistant m = true :=
    fun m hm => (List.mem_filter.mp (mem_dropUnpairedTail m _ hm)).2
  have f1 : (t.filter isFileContentMsg).filter isFileContentMsg
      = t.filter isFileContentMsg := List.filter_eq_self.mpr hFCmem
  have f2 : (dropUnpairedTail (t.filter isUserOrAssistant)).filter isFileContentMsg
      = [] := List.filter_eq_nil_iff.mpr
        (fun m hm => by simp [not_fc_of_ua m (hPmem m hm)])
  have f3 : ([(⟨"user", u⟩ : Msg)]).filter isFileContentMsg = [] := rfl
  have f4 : (t.filter isFileContentMsg).filter isUserOrAssistant = [] :=
    List.filter_eq_nil_iff.mpr
      (fun m hm => by simp [not_ua_of_fileContent m (hFCmem m hm)])
  have f5 : (dropUnpairedTail (t.filter isUserOrAssistant)).filter isUserOrAssistant
      = dropUnpairedTail (t.filter isUserOrAssistant) :=
    List.filter_eq_self.mpr hPmem
  have f6 : ([(⟨"user", u⟩ : Msg)]).filter isUserOrAssistant = [⟨"user", u⟩] := rfl
  have f7 : dropUnpairedTail (dropUnpairedTail (t.filter isUserOrAssistant)
      ++ [⟨"user", u⟩]) = dropUnpairedTail (t.filter isUserOrAssistant) :=
    dropUnpairedTail_concat_even _ _ (dropUnpairedTail_even _)
  simp only [rebuildForRequest, splitHistory_eq, List.filter_append, f1, f2, f3,
    f4, f5, f6, List.append_nil, List.nil_append, f7]

/-! ### C1: the path sandbox -/

/-- C1 (amended): `normalize_path` fails — always with the single
`InvalidPath` error — exactly when the canonical path's string form does
not start with the workspace root's string form, and otherwise returns the
canonical string.  It performs no home-directory check of its own (that
check lives in `create_file`), and the containment test is a plain string
prefix test: see the counterexample. -/
theorem normalize_path_rejects_iff_string_prefix_fails (cwd : List String) (p : PyPath) :
    (normalizePath cwd p = Except.error PathError.invalidPath
      ↔ pyStartsWith (canonicalStr cwd p) (workspaceStr cwd) = false)
    ∧ (normalizePath cwd p = Except.error PathError.invalidPath
        ∨ normalizePath cwd p = Except.ok (canonicalStr cwd p)) := by
  unfold normalizePath
  by_cases h : pyStartsWith (canonicalStr cwd p) (workspaceStr cwd) <;> simp [h]

/-- C1 counterexample: `normalize_path` does not reject home-directory
references — the relative path `~/f` (segments `["~", "f"]`) resolves under
the workspace `/ws` and is accepted — and a path outside the workspace
whose string merely extends the workspace string, `/wsx/f` against
workspace `/ws`, is accepted as well. -/
theorem normalize_path_claim_counterexample :
    (PyPath.mk false ["~", "f"]).segs.contains "~" = true
    ∧ normalizePath ["ws"] ⟨false, ["~", "f"]⟩ = Except.ok "/ws/~/f"
    ∧ normalizePath ["ws"] ⟨true, ["wsx", "f"]⟩ = Except.ok "/wsx/f" :=
  ⟨rfl, rfl, rfl⟩

/-! ### C6: rate limiter window invariant -/

lemma rlPrune_suffix (p now : ℚ) (ts : List ℚ) : rlPrune p now ts <:+ ts := by
  induction ts with
  | nil => exact List.suffix_refl _
  | cons t rest ih =>
    rw [rlPrune]
    split
    · exact ih.trans (List.suffix_cons t rest)
    · exact List.suffix_refl _

lemma rlPrune_age (p now : ℚ) (ts : List ℚ) (hsort : List.Pairwise (· < ·) ts) :
    ∀ x ∈ rlPrune p now ts, now - x ≤ p := by
  induction ts with
  | nil => intro x hx; simp [rlPrune] at hx
  | cons t rest ih =>
    rw [rlPrune]
    split
    · exact ih hsort.of_cons
    · rename_i hkeep
      intro x hx
      rcases List.mem_cons.mp hx with rfl | hx
      · exact le_of_not_lt hkeep
      · have ht : t < x := (List.pairwise_cons.mp hsort).1 x hx
        have h2 : now - t ≤ p := le_of_not_lt hkeep
        linarith

lemma rlPrune_length_le (p n now : ℚ) (ts : List ℚ)
    (hsort : List.Pairwise (· < ·) ts) (hlt : n < now) :
    (rlPrune p now ts).length ≤ ts.countP (fun t => decide (n - t < p)) := by
  have hall : ∀ x ∈ rlPrune p now ts, (fun t => decide (n - t < p)) x = true := by
    intro x hx
    have h1 : now - x ≤ p := rlPrune_age p now ts hsort x hx
    simp only [decide_eq_true_eq]
    linarith
  calc (rlPrune p now ts).length
      = (rlPrune p now ts).countP (fun t => decide (n - t < p)) :=
        (List.countP_eq_length.mpr hall).symm
    _ ≤ ts.countP (fun t => decide (n - t < p)) :=
        List.Sublist.countP_le _ (rlPrune_suffix p now ts).sublist

lemma rlReach_invariant (m : Nat) (p : ℚ) (ts : List ℚ) (n : ℚ)
    (hm : 1 ≤ m) (h : RLReach m p ts n) :
    List.Pairwise (· < ·) ts ∧ (∀ x ∈ ts, x ≤ n)
      ∧ ts.countP (fun t => decide (n - t < p)) ≤ m := by
  induction h with
  | init n0 => simp
  | step ts n now wake st t1 hreach hlt hwake hcall ih =>
    obtain ⟨ihsort, ihbound, ihcount⟩ := ih
    have hsuffix := rlPrune_suffix p now ts
    have hsort2 : List.Pairwise (· < ·) (rlPrune p now ts) :=
      List.Pairwise.sublist hsuffix.sublist ihsort
    have hbound2 : ∀ x ∈ rlPrune p now ts, x ≤ n :=
      fun x hx => ihbound x (hsuffix.subset hx)
    have hage2 : ∀ x ∈ rlPrune p now ts, now - x ≤ p := rlPrune_age p now ts ihsort
    have hlen : (rlPrune p now ts).length ≤ m :=
      Nat.le_trans (rlPrune_length_le p n now ts ihsort hlt) ihcount
    simp only [rlCall] at hcall
    rcases hts : rlPrune p now ts with _ | ⟨h0, restts⟩
    · -- the pruned deque is empty: the non-blocked branch (m ≥ 1 > 0)
      rw [hts] at hcall
      rw [if_neg (by simp; omega)] at hcall
      simp only [Option.some.injEq, Prod.mk.injEq] at hcall
      obtain ⟨hst, ht1⟩ := hcall
      rw [← hst, ← ht1]
      refine ⟨by simp, by simp, ?_⟩
      calc List.countP (fun t => decide (now - t < p)) ([] ++ [now])
          ≤ ([] ++ [now]).length := List.countP_le_length _
        _ = 1 := rfl
        _ ≤ m := hm
    · rw [hts] at hcall
      by_cases hfull : m ≤ (h0 :: restts).length
      · -- blocked branch: sleep until the head entry ages out, admit at wake
        rw [if_pos hfull] at hcall
        simp only [Option.some.injEq, Prod.mk.injEq] at hcall
        obtain ⟨hst, ht1⟩ := hcall
        have hw := hwake (by rw [hts]; exact hfull)
        have hwake2 : h0 + p ≤ wake := by
          have := hw.2
          rw [hts] at this
          simp only [rlWaitTime, List.headI] at this
          linarith
        have hbound3 : ∀ x ∈ h0 :: restts, x ≤ n := by rw [← hts]; exact hbound2
        have hsort3 : List.Pairwise (· < ·) (h0 :: restts) := by rw [← hts]; exact hsort2
        rw [← hst, ← ht1]
        refine ⟨?_, ?_, ?_⟩
        · rw [List.pairwise_append]
          refine ⟨hsort3, List.pairwise_singleton _ _, ?_⟩
          intro a ha b hb
          rcases List.mem_singleton.mp hb with rfl
          have h1 : a ≤ n := hbound3 a ha
          have h2 : now < b := hw.1
          linarith
        · intro x hx
          rcases List.mem_append.mp hx with hx | hx
          · have h1 : x ≤ n := hbound3 x hx
            have h2 : now < wake := hw.1
            linarith
          · rcases List.mem_singleton.mp hx with rfl
            exact le_refl _
        · show List.countP (fun t => decide (wake - t < p)) ((h0 :: restts) ++ [wake]) ≤ m
          rw [List.countP_append, List.countP_cons, List.countP_cons]
          have hhead : decide (wake - h0 < p) = false := by
            simp only [decide_eq_false_iff_not, not_lt]
            linarith
          rw [hhead]
          have hrest : List.countP (fun t => decide (wake - t < p)) restts
              ≤ restts.length := List.countP_le_length _
          have hlen2 : (h0 :: restts).length ≤ m := by rw [← hts]; exact hlen
          simp only [List.length_cons] at hlen2
          simp only [List.countP_nil, Bool.false_eq_true, if_false, Nat.zero_add]
          split <;> omega
      · -- free branch: admit at now
        rw [if_neg hfull] at hcall
        simp only [Option.some.injEq, Prod.mk.injEq] at hcall
        obtain ⟨hst, ht1⟩ := hcall
        have hbound3 : ∀ x ∈ h0 :: restts, x ≤ n := by rw [← hts]; exact hbound2
        have hsort3 : List.Pairwise (· < ·) (h0 :: restts) := by rw [← hts]; exact hsort2
        have hlen2 : (h0 :: restts).length ≤ m := by rw [← hts]; exact hlen
        rw [← hst, ← ht1]
        refine ⟨?_, ?_, ?_⟩
        · rw [List.pairwise_append]
          refine ⟨hsort3, List.pairwise_singleton _ _, ?_⟩
          intro a ha b hb
          rcases List.mem_singleton.mp hb with rfl
          have h1 : a ≤ n := hbound3 a ha
          linarith
        · intro x hx
          rcases List.mem_append.mp hx with hx | hx
          · have h1 : x ≤ n := hbound3 x hx
            linarith
          · rcases List.mem_singleton.mp hx with rfl
            exact le_refl _
        · show List.countP (fun t => decide (now - t < p)) ((h0 :: restts) ++ [now]) ≤ m
          have h1 : List.countP (fun t => decide (now - t < p)) ((h0 :: restts) ++ [now])
              ≤ ((h0 :: restts) ++ [now]).length := List.countP_le_length _
          have h2 : ((h0 :: restts) ++ [now]).length = (h0 :: restts).length + 1 := by
            simp
          omega

/-- C6 (amended): under a strictly increasing clock, and sleeps that wait
at least the requested time, a reachable rate-limiter deque never holds
more than `max_calls` timestamps whose age is *strictly* below `period`
(for a configuration with `max_calls ≥ 1` and `period > 0`).  With the
non-strict reading of "age within period" — the code's own non-expiry
criterion `now - t > period` — the bound fails: see the counterexample,
where an admission happens exactly `period` after the one before it. -/
theorem rate_window_strict_count_bound (m : Nat) (p : ℚ) (ts : List ℚ) (n : ℚ)
    (hm : 1 ≤ m) (_hp : 0 < p) (h : RLReach m p ts n) :
    strictWindowCount p n ts ≤ m :=
  (rlReach_invariant m p ts n hm h).2.2

/-- Witness for C6: after one admission at time 0 (configuration
`max_calls = 1`, `period = 1`, clock started at -1) the window holds one
in-window timestamp, within the bound. -/
theorem rate_window_strict_count_bound_witness :
    strictWindowCount 1 0 [0] ≤ 1 := by
  have h0 : RLReach 1 1 [] (-1) := RLReach.init (-1)
  have h1 : RLReach 1 1 [0] 0 :=
    RLReach.step [] (-1) 0 0 ⟨1, 1, [0]⟩ 0 h0 (by norm_num)
      (fun hcon => absurd hcon (by decide)) rfl
  exact rate_window_strict_count_bound 1 1 [0] 0 (le_refl 1) (by norm_num) h1

/-- C6 counterexample: with `max_calls = 1` and `period = 2`, an admission
at time 0 followed by a blocked acquisition entered at time 1 (which sleeps
exactly the requested 1 second and is admitted at time 2) reaches the deque
`[0, 2]` at time 2: both timestamps have age ≤ period — the window holds 2
> `max_calls` non-expired timestamps, and the two admissions lie within one
closed rolling interval of length `period`. -/
theorem rate_window_boundary_counterexample :
    RLReach 1 2 [0, 2] 2
    ∧ 1 < List.countP (fun t => decide ((2:ℚ) - t ≤ 2)) [0, 2] := by
  constructor
  · have h0 : RLReach 1 2 [] (-1) := RLReach.init (-1)
    have h1 : RLReach 1 2 [0] 0 :=
      RLReach.step [] (-1) 0 0 ⟨1, 2, [0]⟩ 0 h0 (by norm_num)
        (fun hcon => absurd hcon (by decide)) rfl
    exact RLReach.step [0] 0 1 2 ⟨1, 2, [0, 2]⟩ 2 h1 (by norm_num)
      (fun _ => ⟨by norm_num, by norm_num [rlWaitTime, rlPrune, List.headI]⟩)
      (by norm_num [rlCall, rlPrune])
  · norm_num [List.countP_cons, List.countP_nil]
